import Mathlib

/-!
# Verification of the pftest route resolver (`src/index.js`)

Shallow embedding of the route-resolution utility: a registry of route
definitions is walked along parent references to compute each route's
absolute path and effective (maximum-of-chain) access level, and user
access is decided by comparing the user's level against the resolved
access level.

JavaScript specifics modelled explicitly:
* the `while (currentParent)` guard tests JS truthiness of a string, so
  both `null`/absent (`none`) and the empty string `""` end the walk;
* `registry.find(...)` can miss; destructuring the resulting `undefined`
  throws, modelled as `Failure.lookupError`;
* a cyclic registry makes the `while` loop diverge, modelled with an
  iteration bound (`fuel`); exhausting it is `Failure.outOfFuel`;
* on a `paths.find` miss in `hasAccess`, the source computes
  `const { access } = undefined || -1`, so `access` is `undefined` and
  `_accessGranted(undefined, level)` is `false` because `undefined > -1`
  is `false` — extensionally the same as `_accessGranted(-1, level)`,
  which is how the miss case is embedded (the source comment itself says
  "we return a -1").
-/

namespace PFTest

/-- A route definition from the registry: `{ path, parent, level }`.
`parent` is `none` for an absent/null parent reference. -/
structure RouteDefinition where
  path : String
  parent : Option String
  level : Int
  deriving Repr, DecidableEq

/-- A resolved route: `{ absolutePath, access }` as produced by `_getPath`. -/
structure ResolvedRoute where
  absolutePath : String
  access : Int
  deriving Repr, DecidableEq

/-- A user record `{ name, level }`. -/
structure User where
  name : String
  level : Int
  deriving Repr, DecidableEq

/-- How a run of the resolver can fail to return normally:
`lookupError` is the thrown TypeError when destructuring the `undefined`
returned by a missed parent lookup; `outOfFuel` means the iteration bound
was exhausted (the JS loop would still be running). -/
inductive Failure where
  | lookupError : Failure
  | outOfFuel : Failure
  deriving Repr, DecidableEq

/-- `_accessGranted(access, level)`: `access > -1 && level >= access`. -/
def _accessGranted (access level : Int) : Bool :=
  access > -1 && level ≥ access

/-- `_createRoute(path, absolutePath)`:
`path !== '/' ? path + absolutePath : absolutePath`. -/
def _createRoute (path absolutePath : String) : String :=
  if path ≠ "/" then path ++ absolutePath else absolutePath

/-- `_findParent(registry, currentParent)`:
`registry.find(({ path }) => path === currentParent)`. -/
def _findParent (registry : List RouteDefinition) (currentParent : String) :
    Option RouteDefinition :=
  registry.find? (fun r => r.path = currentParent)

/-- The `while (currentParent)` loop body of `_getPath`, with an explicit
iteration bound `fuel`. The guard is JS truthiness: the loop exits when
`currentParent` is `none` (null/absent) or `some ""` (empty string is
falsy). A missed parent lookup is the thrown `lookupError`. -/
def _getPathLoop (registry : List RouteDefinition) :
    Nat → String → Int → Option String → Except Failure ResolvedRoute
  | _, absolutePath, access, none => .ok ⟨absolutePath, access⟩
  | fuel, absolutePath, access, some s =>
    if s = "" then .ok ⟨absolutePath, access⟩
    else
      match _findParent registry s with
      | none => .error .lookupError
      | some p =>
        match fuel with
        | 0 => .error .outOfFuel
        | fuel' + 1 =>
          _getPathLoop registry fuel' (_createRoute p.path absolutePath)
            (max access p.level) p.parent

/-- `_getPath(parent, path, level, registry)`: initialize the accumulators
to the route's own fields and run the parent walk. -/
def _getPath (fuel : Nat) (parent : Option String) (path : String)
    (level : Int) (registry : List RouteDefinition) :
    Except Failure ResolvedRoute :=
  _getPathLoop registry fuel path level parent

/-- The `registry.map(...)` of `getAllPaths`, sequencing the per-route
walks left to right; a thrown failure in any route aborts the whole call,
as a JS exception aborts the `map`. -/
def getAllPathsAux (fuel : Nat) (registry : List RouteDefinition) :
    List RouteDefinition → Except Failure (List ResolvedRoute)
  | [] => .ok []
  | r :: rs =>
    match _getPath fuel r.parent r.path r.level registry with
    | .error f => .error f
    | .ok res =>
      match getAllPathsAux fuel registry rs with
      | .error f => .error f
      | .ok rest => .ok (res :: rest)

/-- `getAllPaths(registry)` (the spec's `resolvePaths`), bounded by `fuel`
loop iterations per route. -/
def getAllPaths (fuel : Nat) (registry : List RouteDefinition) :
    Except Failure (List ResolvedRoute) :=
  getAllPathsAux fuel registry registry

/-- `hasAccess(user, path, paths)`: find the first resolved route whose
`absolutePath` equals `path`; on a miss the required access behaves as the
sentinel `-1` (see the module comment on the `|| -1` destructuring). -/
def hasAccess (user : User) (path : String) (paths : List ResolvedRoute) :
    Bool :=
  let access : Int :=
    match paths.find? (fun r => r.absolutePath = path) with
    | some r => r.access
    | none => -1
  _accessGranted access user.level

/-- `getUserPaths(user, paths)` (the spec's `listAccessiblePaths`):
filter the resolved routes by `hasAccess`. -/
def getUserPaths (user : User) (paths : List ResolvedRoute) :
    List ResolvedRoute :=
  paths.filter (fun r => hasAccess user r.absolutePath paths)

/-! ## Specification-side definitions

These follow the spec's words, for comparison against the embedded code. -/

/-- Spec-side: the levels of the ancestors along the parent chain, nearest
ancestor first. Unlike the code's walk, every non-null parent reference is
looked up (the spec terminates the chain only at null/absent). -/
def specAncestorLevels (registry : List RouteDefinition) :
    Nat → Option String → Except Failure (List Int)
  | _, none => .ok []
  | fuel, some s =>
    match _findParent registry s with
    | none => .error .lookupError
    | some p =>
      match fuel with
      | 0 => .error .outOfFuel
      | fuel' + 1 =>
        match specAncestorLevels registry fuel' p.parent with
        | .ok ls => .ok (p.level :: ls)
        | .error f => .error f

/-- Spec-side: a route's parent reference is null or matches some route's
path in the registry (the well-formedness invariant of the data model). -/
def parentResolvable (registry : List RouteDefinition)
    (r : RouteDefinition) : Bool :=
  match r.parent with
  | none => true
  | some s => registry.any (fun q => q.path = s)

/-- Spec-side: every non-null parent reference in the registry matches
some route's path. -/
def specWellFormed (registry : List RouteDefinition) : Bool :=
  registry.all (parentResolvable registry)

/-- Spec-side: the parent chain of `p` fully resolves (no missing parent,
and it terminates within `fuel` steps). -/
def chainResolves (registry : List RouteDefinition) (fuel : Nat)
    (p : Option String) : Bool :=
  match specAncestorLevels registry fuel p with
  | .ok _ => true
  | .error _ => false

/-! ## Step lemmas for the walk and the spec-side chain -/

/-- With a null/absent parent the walk returns the accumulators. -/
theorem getPathLoop_none (registry : List RouteDefinition) (fuel : Nat)
    (abs : String) (acc : Int) :
    _getPathLoop registry fuel abs acc none = .ok ⟨abs, acc⟩ := by
  cases fuel <;> rfl

/-- With an empty-string parent (falsy in JS) the walk returns the
accumulators without any lookup. -/
theorem getPathLoop_empty (registry : List RouteDefinition) (fuel : Nat)
    (abs : String) (acc : Int) :
    _getPathLoop registry fuel abs acc (some "") = .ok ⟨abs, acc⟩ := by
  cases fuel <;> · rw [_getPathLoop, if_pos rfl]

/-- A truthy parent reference that matches no route's path makes the walk
raise the lookup failure. -/
theorem getPathLoop_miss (registry : List RouteDefinition) (fuel : Nat)
    (abs : String) (acc : Int) (s : String) (hs : s ≠ "")
    (hfind : _findParent registry s = none) :
    _getPathLoop registry fuel abs acc (some s) = .error .lookupError := by
  cases fuel <;> · rw [_getPathLoop, if_neg hs, hfind]

/-- A found parent advances the walk one step, consuming one unit of fuel. -/
theorem getPathLoop_succ_found (registry : List RouteDefinition) (fuel : Nat)
    (abs : String) (acc : Int) (s : String) (p : RouteDefinition)
    (hs : s ≠ "") (hfind : _findParent registry s = some p) :
    _getPathLoop registry (fuel + 1) abs acc (some s) =
      _getPathLoop registry fuel (_createRoute p.path abs) (max acc p.level)
        p.parent := by
  rw [_getPathLoop, if_neg hs, hfind]

/-- A found parent with no fuel left reports fuel exhaustion. -/
theorem getPathLoop_zero_found (registry : List RouteDefinition)
    (abs : String) (acc : Int) (s : String) (p : RouteDefinition)
    (hs : s ≠ "") (hfind : _findParent registry s = some p) :
    _getPathLoop registry 0 abs acc (some s) = .error .outOfFuel := by
  rw [_getPathLoop, if_neg hs, hfind]

/-- A null/absent parent has no ancestors. -/
theorem specAncestorLevels_none (registry : List RouteDefinition)
    (fuel : Nat) :
    specAncestorLevels registry fuel none = .ok [] := by
  cases fuel <;> rfl

/-- A parent reference that matches no route's path makes the spec-side
chain fail with the lookup failure. -/
theorem specAncestorLevels_miss (registry : List RouteDefinition)
    (fuel : Nat) (s : String) (hfind : _findParent registry s = none) :
    specAncestorLevels registry fuel (some s) = .error .lookupError := by
  cases fuel <;> · rw [specAncestorLevels, hfind]

/-- A found parent contributes its level and the chain continues from its
own parent reference. -/
theorem specAncestorLevels_succ_found (registry : List RouteDefinition)
    (fuel : Nat) (s : String) (p : RouteDefinition)
    (hfind : _findParent registry s = some p) :
    specAncestorLevels registry (fuel + 1) (some s) =
      match specAncestorLevels registry fuel p.parent with
      | .ok ls => .ok (p.level :: ls)
      | .error f => .error f := by
  rw [specAncestorLevels, hfind]

/-- A found parent with no fuel left makes the spec-side chain report fuel
exhaustion. -/
theorem specAncestorLevels_zero_found (registry : List RouteDefinition)
    (s : String) (p : RouteDefinition)
    (hfind : _findParent registry s = some p) :
    specAncestorLevels registry 0 (some s) = .error .outOfFuel := by
  rw [specAncestorLevels, hfind]

/-! ## Maximum-of-a-chain helper lemmas -/

/-- The running maximum is at least its initial value. -/
theorem foldl_max_init_le (ls : List Int) : ∀ a : Int, a ≤ ls.foldl max a := by
  induction ls with
  | nil => intro a; exact le_refl a
  | cons l ls ih =>
    intro a
    exact le_trans (le_max_left a l) (ih (max a l))

/-- The running maximum is at least every list element. -/
theorem foldl_max_mem_le (ls : List Int) :
    ∀ a l : Int, l ∈ ls → l ≤ ls.foldl max a := by
  induction ls with
  | nil => intro a l h; cases h
  | cons x ls ih =>
    intro a l h
    rcases List.mem_cons.mp h with h1 | h2
    · subst h1
      exact le_trans (le_max_right a l) (foldl_max_init_le ls (max a l))
    · exact ih (max a x) l h2

/-- The running maximum is the initial value or one of the list elements. -/
theorem foldl_max_eq_or_mem (ls : List Int) :
    ∀ a : Int, ls.foldl max a = a ∨ ls.foldl max a ∈ ls := by
  induction ls with
  | nil => intro a; exact Or.inl rfl
  | cons x ls ih =>
    intro a
    rcases ih (max a x) with h | h
    · rcases max_choice a x with hm | hm
      · exact Or.inl (by rw [List.foldl_cons, h, hm])
      · exact Or.inr (List.mem_cons.mpr (Or.inl (by rw [List.foldl_cons, h, hm])))
    · exact Or.inr (List.mem_cons.mpr (Or.inr h))

/-- Membership from an index lookup. -/
theorem mem_of_idx {α : Type} {l : List α} {i : Nat} {a : α}
    (h : l[i]? = some a) : a ∈ l := by
  obtain ⟨hi, rfl⟩ := List.getElem?_eq_some_iff.mp h
  exact List.getElem_mem hi

/-- The chain resolves exactly when the spec-side chain returns a list. -/
theorem chainResolves_iff (registry : List RouteDefinition) (fuel : Nat)
    (p : Option String) :
    chainResolves registry fuel p = true ↔
      ∃ ls, specAncestorLevels registry fuel p = .ok ls := by
  unfold chainResolves
  cases h : specAncestorLevels registry fuel p with
  | ok ls => simp [h]
  | error f => simp [h]

/-! ## The walk computes the maximum over the ancestor chain -/

/-- When no parent reference in the registry is the empty string and the
spec-side chain of `parent` resolves to the level list `ls`, the code's
walk succeeds and its access accumulator ends at the running maximum of
`ls` over the initial accumulator. -/
theorem walkLoop_ok_of_chain (registry : List RouteDefinition)
    (hne : ∀ q ∈ registry, q.parent ≠ some "") :
    ∀ (fuel : Nat) (parent : Option String), parent ≠ some "" →
    ∀ (abs : String) (acc : Int) (ls : List Int),
      specAncestorLevels registry fuel parent = .ok ls →
      ∃ a, _getPathLoop registry fuel abs acc parent =
        .ok ⟨a, ls.foldl max acc⟩ := by
  intro fuel
  induction fuel with
  | zero =>
    rintro (_ | ⟨s⟩) hp abs acc ls hspec
    · rw [specAncestorLevels_none] at hspec
      injection hspec with h
      subst h
      exact ⟨abs, getPathLoop_none registry 0 abs acc⟩
    · cases hfind : _findParent registry s with
      | none => rw [specAncestorLevels_miss registry 0 s hfind] at hspec; cases hspec
      | some p => rw [specAncestorLevels_zero_found registry s p hfind] at hspec; cases hspec
  | succ fuel ih =>
    rintro (_ | ⟨s⟩) hp abs acc ls hspec
    · rw [specAncestorLevels_none] at hspec
      injection hspec with h
      subst h
      exact ⟨abs, getPathLoop_none registry (fuel + 1) abs acc⟩
    · have hs : s ≠ "" := fun h => hp (by rw [h])
      cases hfind : _findParent registry s with
      | none => rw [specAncestorLevels_miss registry (fuel + 1) s hfind] at hspec; cases hspec
      | some p =>
        rw [specAncestorLevels_succ_found registry fuel s p hfind] at hspec
        cases hrec : specAncestorLevels registry fuel p.parent with
        | error f => rw [hrec] at hspec; cases hspec
        | ok ls' =>
          rw [hrec] at hspec
          injection hspec with h
          subst h
          have hpmem : p ∈ registry := List.mem_of_find?_eq_some hfind
          obtain ⟨a, ha⟩ := ih p.parent (hne p hpmem) (_createRoute p.path abs)
            (max acc p.level) ls' hrec
          refine ⟨a, ?_⟩
          rw [getPathLoop_succ_found registry fuel abs acc s p hs hfind, ha,
            List.foldl_cons]

/-- When no parent reference in the registry is the empty string and the
spec-side chain of `parent` hits a missing parent, the code's walk raises
the same lookup failure. -/
theorem walkLoop_err_of_chain (registry : List RouteDefinition)
    (hne : ∀ q ∈ registry, q.parent ≠ some "") :
    ∀ (fuel : Nat) (parent : Option String), parent ≠ some "" →
    ∀ (abs : String) (acc : Int),
      specAncestorLevels registry fuel parent = .error .lookupError →
      _getPathLoop registry fuel abs acc parent = .error .lookupError := by
  intro fuel
  induction fuel with
  | zero =>
    rintro (_ | ⟨s⟩) hp abs acc hspec
    · rw [specAncestorLevels_none] at hspec; cases hspec
    · have hs : s ≠ "" := fun h => hp (by rw [h])
      cases hfind : _findParent registry s with
      | none => exact getPathLoop_miss registry 0 abs acc s hs hfind
      | some p => rw [specAncestorLevels_zero_found registry s p hfind] at hspec; cases hspec
  | succ fuel ih =>
    rintro (_ | ⟨s⟩) hp abs acc hspec
    · rw [specAncestorLevels_none] at hspec; cases hspec
    · have hs : s ≠ "" := fun h => hp (by rw [h])
      cases hfind : _findParent registry s with
      | none => exact getPathLoop_miss registry (fuel + 1) abs acc s hs hfind
      | some p =>
        rw [specAncestorLevels_succ_found registry fuel s p hfind] at hspec
        cases hrec : specAncestorLevels registry fuel p.parent with
        | ok ls' => rw [hrec] at hspec; cases hspec
        | error f =>
          rw [hrec] at hspec
          injection hspec with h
          subst h
          have hpmem : p ∈ registry := List.mem_of_find?_eq_some hfind
          rw [getPathLoop_succ_found registry fuel abs acc s p hs hfind]
          exact ih p.parent (hne p hpmem) (_createRoute p.path abs)
            (max acc p.level) hrec

/-! ## Sequencing over the registry -/

/-- If every route in `l` resolves, the sequenced map succeeds, yields one
output per input, and the output at each index is that input's resolved
route. -/
theorem getAllPathsAux_ok (fuel : Nat) (registry : List RouteDefinition) :
    ∀ l : List RouteDefinition,
      (∀ r ∈ l, ∃ res, _getPath fuel r.parent r.path r.level registry = .ok res) →
      ∃ out, getAllPathsAux fuel registry l = .ok out ∧
        out.length = l.length ∧
        ∀ (i : Nat) (q : RouteDefinition), l[i]? = some q →
          ∃ res, out[i]? = some res ∧
            _getPath fuel q.parent q.path q.level registry = .ok res := by
  intro l
  induction l with
  | nil =>
    intro _
    refine ⟨[], rfl, rfl, ?_⟩
    intro i r h
    simp at h
  | cons r rs ih =>
    intro h
    obtain ⟨res0, hres0⟩ := h r (List.mem_cons_self r rs)
    obtain ⟨out, hout, hlen, hidx⟩ :=
      ih (fun q hq => h q (List.mem_cons_of_mem r hq))
    refine ⟨res0 :: out, ?_, ?_, ?_⟩
    · simp only [getAllPathsAux, hres0, hout]
    · simp [hlen]
    · intro i q hq
      cases i with
      | zero =>
        rw [List.getElem?_cons_zero] at hq
        injection hq with hq
        subst hq
        exact ⟨res0, List.getElem?_cons_zero, hres0⟩
      | succ i =>
        rw [List.getElem?_cons_succ] at hq
        obtain ⟨res, hres, hw⟩ := hidx i q hq
        exact ⟨res, by rw [List.getElem?_cons_succ]; exact hres, hw⟩

/-- If some route in `l` fails to resolve, the sequenced map fails. -/
theorem getAllPathsAux_err (fuel : Nat) (registry : List RouteDefinition)
    (f : Failure) (r : RouteDefinition)
    (hw : _getPath fuel r.parent r.path r.level registry = .error f) :
    ∀ l : List RouteDefinition, r ∈ l →
      ∃ g, getAllPathsAux fuel registry l = .error g := by
  intro l
  induction l with
  | nil => intro h; cases h
  | cons a rs ih =>
    intro h
    rcases List.mem_cons.mp h with rfl | hmem
    · exact ⟨f, by simp only [getAllPathsAux, hw]⟩
    · cases hwa : _getPath fuel a.parent a.path a.level registry with
      | error g => exact ⟨g, by simp only [getAllPathsAux, hwa]⟩
      | ok res =>
        obtain ⟨g, hg⟩ := ih hmem
        exact ⟨g, by simp only [getAllPathsAux, hwa, hg]⟩

/-! ## Claim theorems -/

/-- C1 (falsified as stated): the registry
`[{path:"", parent:null, level:9}, {path:"/a", parent:"", level:0}]` is
well-formed (its only non-null parent reference `""` matches the first
route's path) and acyclic (the spec-side chain of `"/a"` resolves, to the
ancestor level list `[9]`), so C1 predicts access `max 0 9 = 9` for
`"/a"`; but `getAllPaths` returns access `0` for it, because the JS
`while (currentParent)` guard treats the empty-string parent as falsy and
never walks to the level-9 ancestor. -/
theorem resolvePaths_chain_max_cex :
    specWellFormed [⟨"", none, 9⟩, ⟨"/a", some "", 0⟩] = true ∧
    specAncestorLevels [⟨"", none, 9⟩, ⟨"/a", some "", 0⟩] 5 (some "") =
      .ok [9] ∧
    getAllPaths 5 [⟨"", none, 9⟩, ⟨"/a", some "", 0⟩] =
      .ok [⟨"", 9⟩, ⟨"/a", 0⟩] ∧
    (0 : Int) ≠ List.foldl max 0 [9] :=
  ⟨by decide, rfl, rfl, by decide⟩

/-- C1 (amended): for every well-formed acyclic registry in which no
route's parent reference is the empty string (expressed as: every
route's spec-side ancestor chain resolves within the iteration bound),
`getAllPaths` returns exactly one ResolvedRoute per input
RouteDefinition, in the same order, and each output's `access` is the
maximum of the route's own level and the levels of all its ancestors
along the parent chain (stated as the running maximum of the chain's
level list, together with the upper-bound and attainment facts that
characterize the maximum). -/
theorem resolvePaths_access_is_chain_max (fuel : Nat)
    (registry : List RouteDefinition)
    (hne : ∀ r ∈ registry, r.parent ≠ some "")
    (hok : ∀ r ∈ registry, chainResolves registry fuel r.parent = true) :
    ∃ out, getAllPaths fuel registry = .ok out ∧
      out.length = registry.length ∧
      ∀ (i : Nat) (q : RouteDefinition), registry[i]? = some q →
        ∃ ls res, specAncestorLevels registry fuel q.parent = .ok ls ∧
          out[i]? = some res ∧
          res.access = ls.foldl max q.level ∧
          q.level ≤ res.access ∧ (∀ l ∈ ls, l ≤ res.access) ∧
          (res.access = q.level ∨ res.access ∈ ls) := by
  have hwalk : ∀ r ∈ registry,
      ∃ res, _getPath fuel r.parent r.path r.level registry = .ok res := by
    intro r hr
    obtain ⟨ls, hls⟩ :=
      (chainResolves_iff registry fuel r.parent).mp (hok r hr)
    obtain ⟨a, ha⟩ := walkLoop_ok_of_chain registry hne fuel r.parent
      (hne r hr) r.path r.level ls hls
    exact ⟨⟨a, ls.foldl max r.level⟩, ha⟩
  obtain ⟨out, hout, hlen, hidx⟩ := getAllPathsAux_ok fuel registry registry hwalk
  refine ⟨out, hout, hlen, ?_⟩
  intro i q hq
  have hqmem : q ∈ registry := mem_of_idx hq
  obtain ⟨ls, hls⟩ := (chainResolves_iff registry fuel q.parent).mp (hok q hqmem)
  obtain ⟨res, hres, hw⟩ := hidx i q hq
  obtain ⟨a, ha⟩ := walkLoop_ok_of_chain registry hne fuel q.parent
    (hne q hqmem) q.path q.level ls hls
  have hres_eq : res = ⟨a, ls.foldl max q.level⟩ := by
    have h2 := hw.symm.trans ha
    injection h2
  subst hres_eq
  refine ⟨ls, ⟨a, ls.foldl max q.level⟩, hls, hres, rfl, ?_, ?_, ?_⟩
  · exact foldl_max_init_le ls q.level
  · intro l hl
    exact foldl_max_mem_le ls q.level l hl
  · exact foldl_max_eq_or_mem ls q.level

/-- Witness for the amended C1, on the two-route registry
`[{path:"/", parent:null, level:0}, {path:"/admin", parent:"/", level:5}]`
with iteration bound 5. -/
theorem resolvePaths_access_is_chain_max_witness :
    ∃ out, getAllPaths 5 [⟨"/", none, 0⟩, ⟨"/admin", some "/", 5⟩] = .ok out ∧
      out.length =
        ([⟨"/", none, 0⟩, ⟨"/admin", some "/", 5⟩] :
          List RouteDefinition).length ∧
      ∀ (i : Nat) (q : RouteDefinition),
        ([⟨"/", none, 0⟩, ⟨"/admin", some "/", 5⟩] :
          List RouteDefinition)[i]? = some q →
        ∃ ls res,
          specAncestorLevels [⟨"/", none, 0⟩, ⟨"/admin", some "/", 5⟩] 5
            q.parent = .ok ls ∧
          out[i]? = some res ∧
          res.access = ls.foldl max q.level ∧
          q.level ≤ res.access ∧ (∀ l ∈ ls, l ≤ res.access) ∧
          (res.access = q.level ∨ res.access ∈ ls) :=
  resolvePaths_access_is_chain_max 5
    [⟨"/", none, 0⟩, ⟨"/admin", some "/", 5⟩] (by decide) (by decide)

/-- C2: an ancestor's path segment is prepended to the accumulated
absolute path unless it equals the root marker `"/"`, in which case it
contributes nothing; and on the Scenario 2 registry the route with path
`"/users"` resolves to absolute path `"/admin/users"` with access 5. -/
theorem createRoute_prepend_and_scenario2 :
    (∀ p a : String, _createRoute p a = if p = "/" then a else p ++ a) ∧
    getAllPaths 10
      [⟨"/", none, 0⟩, ⟨"/admin", some "/", 5⟩, ⟨"/users", some "/admin", 2⟩] =
      .ok [⟨"/", 0⟩, ⟨"/admin", 5⟩, ⟨"/admin/users", 5⟩] := by
  constructor
  · intro p a
    by_cases h : p = "/"
    · simp [_createRoute, h]
    · simp [_createRoute, h]
  · rfl

/-- C3: for every user (any level), path and resolved sequence, if the
path equals no ResolvedRoute's `absolutePath`, then `hasAccess` returns
false, and it does so exactly as if the required access were the sentinel
`-1` — a deterministic denial, not an error. -/
theorem hasAccess_unmatched_path_false (user : User) (path : String)
    (resolved : List ResolvedRoute)
    (h : ∀ r ∈ resolved, r.absolutePath ≠ path) :
    hasAccess user path resolved = false ∧
    hasAccess user path resolved = _accessGranted (-1) user.level := by
  have hfind : resolved.find? (fun r => r.absolutePath = path) = none := by
    rw [List.find?_eq_none]
    intro r hr
    simp [h r hr]
  constructor
  · simp [hasAccess, hfind, _accessGranted]
  · simp [hasAccess, hfind]

/-- Witness for C3: a user with a very large level is still denied on a
path absent from the resolved sequence. -/
theorem hasAccess_unmatched_path_false_witness :
    hasAccess ⟨"u", 1000000⟩ "/missing" [⟨"/", 0⟩] = false ∧
    hasAccess ⟨"u", 1000000⟩ "/missing" [⟨"/", 0⟩] =
      _accessGranted (-1) (⟨"u", 1000000⟩ : User).level :=
  hasAccess_unmatched_path_false ⟨"u", 1000000⟩ "/missing" [⟨"/", 0⟩]
    (by decide)

/-- C4: `_accessGranted access level` is true iff `access > -1` and
`level ≥ access`; consequently a sentinel access of `-1` or below never
grants access, whatever the user's level. -/
theorem accessGranted_spec (access level : Int) :
    (_accessGranted access level = true ↔ access > -1 ∧ level ≥ access) ∧
    (access ≤ -1 → _accessGranted access level = false) := by
  constructor
  · simp [_accessGranted]
  · intro h
    simp only [_accessGranted, Bool.and_eq_false_iff, decide_eq_false_iff_not]
    left
    omega

/-- Witness for C4: the sentinel `-1` denies a user of level 1000000. -/
theorem accessGranted_spec_witness :
    _accessGranted (-1) 1000000 = false :=
  (accessGranted_spec (-1) 1000000).2 (by decide)

/-- C5: `hasAccess` is monotone in the user's level — for a fixed path
and resolved sequence, raising the level can only turn a denial into a
grant, never the reverse. -/
theorem hasAccess_monotone (u1 u2 : User) (path : String)
    (resolved : List ResolvedRoute) (hlev : u1.level ≤ u2.level)
    (h : hasAccess u1 path resolved = true) :
    hasAccess u2 path resolved = true := by
  simp only [hasAccess] at h ⊢
  cases hfind : resolved.find? (fun r => r.absolutePath = path) with
  | none =>
    rw [hfind] at h
    simp [_accessGranted] at h
  | some r =>
    rw [hfind] at h
    simp only [_accessGranted, Bool.and_eq_true, decide_eq_true_eq] at h ⊢
    exact ⟨h.1, le_trans h.2 hlev⟩

/-- Witness for C5: a level-0 user reaches `"/"`, so a level-1 user does
too. -/
theorem hasAccess_monotone_witness :
    hasAccess ⟨"b", 1⟩ "/" [⟨"/", 0⟩] = true :=
  hasAccess_monotone ⟨"a", 0⟩ ⟨"b", 1⟩ "/" [⟨"/", 0⟩] (by decide) (by decide)

/-- C6: `getUserPaths` returns exactly the subsequence of resolved routes
the user may access — it is a sublist of the input (original relative
order preserved), it equals the filter of the input by `hasAccess`, and
membership is exactly membership-with-access. -/
theorem getUserPaths_filter_spec (user : User) (paths : List ResolvedRoute) :
    List.Sublist (getUserPaths user paths) paths ∧
    getUserPaths user paths =
      paths.filter (fun r => hasAccess user r.absolutePath paths) ∧
    ∀ r : ResolvedRoute, r ∈ getUserPaths user paths ↔
      r ∈ paths ∧ hasAccess user r.absolutePath paths = true := by
  refine ⟨List.filter_sublist paths, rfl, ?_⟩
  intro r
  exact List.mem_filter

/-- C7: `getAllPaths` is deterministic — two calls on deep-equal
registries (with the same iteration bound) return identical results. -/
theorem getAllPaths_deterministic (fuel : Nat)
    (reg1 reg2 : List RouteDefinition) (h : reg1 = reg2) :
    getAllPaths fuel reg1 = getAllPaths fuel reg2 := by
  rw [h]

/-- Witness for C7, on a one-route registry. -/
theorem getAllPaths_deterministic_witness :
    getAllPaths 3 [⟨"/", none, 0⟩] = getAllPaths 3 [⟨"/", none, 0⟩] :=
  getAllPaths_deterministic 3 [⟨"/", none, 0⟩] [⟨"/", none, 0⟩] rfl

/-- C10: `hasAccess` and `getUserPaths` depend on the user only through
the `level` field — two users with equal levels (any names) get identical
results from both operations. -/
theorem access_depends_only_on_level (u1 u2 : User) (path : String)
    (resolved : List ResolvedRoute) (h : u1.level = u2.level) :
    hasAccess u1 path resolved = hasAccess u2 path resolved ∧
    getUserPaths u1 resolved = getUserPaths u2 resolved := by
  have hh : ∀ q : String,
      hasAccess u1 q resolved = hasAccess u2 q resolved := by
    intro q
    simp [hasAccess, h]
  refine ⟨hh path, ?_⟩
  simp only [getUserPaths]
  exact List.filter_congr (fun r _ => hh r.absolutePath)

/-- Witness for C10: `"alice"` and `"bob"` at level 3 agree on a
one-route resolved sequence. -/
theorem access_depends_only_on_level_witness :
    hasAccess ⟨"alice", 3⟩ "/x" [⟨"/x", 1⟩] =
      hasAccess ⟨"bob", 3⟩ "/x" [⟨"/x", 1⟩] ∧
    getUserPaths ⟨"alice", 3⟩ [⟨"/x", 1⟩] =
      getUserPaths ⟨"bob", 3⟩ [⟨"/x", 1⟩] :=
  access_depends_only_on_level ⟨"alice", 3⟩ ⟨"bob", 3⟩ "/x" [⟨"/x", 1⟩] rfl

/-- C8 (falsified as stated): in the registry
`[{path:"/b", parent:"", level:7}]` the only route's parent reference is
the non-null string `""`, which matches no route's path (the lookup
misses), yet `getAllPaths` returns normally — the JS truthiness guard
never performs the lookup, so the dangling reference is silently
tolerated instead of raising. -/
theorem resolvePaths_missing_parent_cex :
    (∀ q ∈ ([⟨"/b", some "", 7⟩] : List RouteDefinition), q.path ≠ "") ∧
    _findParent [⟨"/b", some "", 7⟩] "" = none ∧
    getAllPaths 5 [⟨"/b", some "", 7⟩] = .ok [⟨"/b", 7⟩] :=
  ⟨by decide, rfl, rfl⟩

/-- C8 (amended): for every registry in which no route's parent reference
is the empty string, if some route's ancestor chain reaches a (non-null,
non-empty) parent reference that matches no route's path (the spec-side
chain fails with the lookup failure), then `getAllPaths` does not return
normally: the walk's lookup failure propagates to the whole call. -/
theorem resolvePaths_missing_parent_fails (fuel : Nat)
    (registry : List RouteDefinition) (r : RouteDefinition)
    (hr : r ∈ registry) (hne : ∀ q ∈ registry, q.parent ≠ some "")
    (hmiss : specAncestorLevels registry fuel r.parent = .error .lookupError) :
    ∃ f, getAllPaths fuel registry = .error f := by
  have hw : _getPath fuel r.parent r.path r.level registry =
      .error .lookupError :=
    walkLoop_err_of_chain registry hne fuel r.parent (hne r hr)
      r.path r.level hmiss
  exact getAllPathsAux_err fuel registry .lookupError r hw registry hr

/-- Witness for the amended C8: a one-route registry whose parent
reference `"/missing"` is dangling makes `getAllPaths` fail. -/
theorem resolvePaths_missing_parent_fails_witness :
    ∃ f, getAllPaths 3 [⟨"/a", some "/missing", 1⟩] = .error f :=
  resolvePaths_missing_parent_fails 3 [⟨"/a", some "/missing", 1⟩]
    ⟨"/a", some "/missing", 1⟩ (by decide) (by decide) rfl

/-- C9 (falsified as stated): in the registry
`[{path:"/a", parent:"", level:3}]` the route's parent is the non-null
string `""`; C9 asserts that such a parent is looked up in the registry
rather than treated as a root, which (the lookup missing, as shown)
would abort the walk — but `getAllPaths` returns the route resolved as a
root, because the JS `while (currentParent)` guard is falsy on `""`. -/
theorem walk_empty_parent_cex :
    (∀ q ∈ ([⟨"/a", some "", 3⟩] : List RouteDefinition), q.path ≠ "") ∧
    _findParent [⟨"/a", some "", 3⟩] "" = none ∧
    getAllPaths 5 [⟨"/a", some "", 3⟩] = .ok [⟨"/a", 3⟩] :=
  ⟨by decide, rfl, rfl⟩

/-- C9 (amended): the ancestor walk terminates exactly when the parent
reference is JS-falsy — null/absent or the empty string, the latter being
treated as a root — and performs a parent lookup for every truthy
(non-null, non-empty) parent reference: in particular a truthy reference
matching no route's path makes the walk raise the lookup failure. -/
theorem walk_truthiness (registry : List RouteDefinition) (fuel : Nat)
    (absolutePath : String) (access : Int) :
    _getPathLoop registry fuel absolutePath access none =
      .ok ⟨absolutePath, access⟩ ∧
    _getPathLoop registry fuel absolutePath access (some "") =
      .ok ⟨absolutePath, access⟩ ∧
    ∀ s : String, s ≠ "" → _findParent registry s = none →
      _getPathLoop registry fuel absolutePath access (some s) =
        .error .lookupError :=
  ⟨getPathLoop_none registry fuel absolutePath access,
   getPathLoop_empty registry fuel absolutePath access,
   fun s hs hfind => getPathLoop_miss registry fuel absolutePath access s hs hfind⟩

/-- Witness for the amended C9: on the empty registry, the truthy parent
reference `"/y"` is looked up, misses, and aborts the walk. -/
theorem walk_truthiness_witness :
    _getPathLoop [] 1 "/x" 2 (some "/y") = .error .lookupError :=
  (walk_truthiness [] 1 "/x" 2).2.2 "/y" (by decide) rfl

end PFTest
